import Mathlib

/-!
Shallow embedding of `src/FourDigitSevenSegmentDisplay.ino` (the most refined
variant of the sketch).  Pure configuration constants become Lean constants;
the hardware side effects (`pinMode`, `digitalWrite`, `delayMicroseconds`)
become an explicit event trace, and the float display value is idealized as a
rational number with exact arithmetic.
-/

namespace SevenSeg

/-- `const int numberOfDigits = 4;` -/
def numberOfDigits : ℕ := 4

/-- `const int digitTimeOn = 1250;` (microseconds per lit digit). -/
def digitTimeOn : ℤ := 1250

/-- `const float timeBetweenIncrements = 0.2;` -/
def timeBetweenIncrements : ℚ := 2 / 10

/-- `const float microsecondsInASecond = 1000000.0;` -/
def microsecondsInASecond : ℚ := 1000000

/-- `const int scaleOfNumber = 1;` (digits after the decimal point). -/
def scaleOfNumber : ℕ := 1

/-- `const int scalingFactor = pow(10.0, scaleOfNumber);` -/
def scalingFactor : ℕ := 10 ^ scaleOfNumber

/-- `const float increment = 1.0 / scalingFactor;` -/
def increment : ℚ := 1 / (scalingFactor : ℚ)

/-- `const float minimumValue = -pow(10.0, numberOfDigits - 1) / scalingFactor + increment;` -/
def minimumValue : ℚ := -(10 ^ (numberOfDigits - 1) : ℚ) / (scalingFactor : ℚ) + increment

/-- `const float maximumValue = pow(10.0, numberOfDigits) / scalingFactor - increment;` -/
def maximumValue : ℚ := (10 ^ numberOfDigits : ℚ) / (scalingFactor : ℚ) - increment

/-- Segment output pins `SEGMENT_A` .. `SEGMENT_G`, `SEGMENT_DP` (2..9). -/
def SEGMENT_A : ℤ := 2
def SEGMENT_B : ℤ := 3
def SEGMENT_C : ℤ := 4
def SEGMENT_D : ℤ := 5
def SEGMENT_E : ℤ := 6
def SEGMENT_F : ℤ := 7
def SEGMENT_G : ℤ := 8
def SEGMENT_DP : ℤ := 9

/-- Digit select pins `DIGIT_1` .. `DIGIT_4` (10..13). -/
def DIGIT_1 : ℤ := 10
def DIGIT_2 : ℤ := 11
def DIGIT_3 : ℤ := 12
def DIGIT_4 : ℤ := 13

/-- `const int segmentPatterns[]`: segment encodings for digits 0..9; each bit
is a segment in the order n/a, a, b, c, d, e, f, g (bit 6 = a .. bit 0 = g). -/
def segmentPatterns : List ℕ :=
  [0b1111110, -- 0: a, b, c, d, e, f
   0b0110000, -- 1: b, c
   0b1101101, -- 2: a, b, d, e, g
   0b1111001, -- 3: a, b, c, d, g
   0b0110011, -- 4: b, c, f, g
   0b1011011, -- 5: a, c, d, f, g
   0b1011111, -- 6: a, c, d, e, f, g
   0b1110000, -- 7: a, b, c
   0b1111111, -- 8: a, b, c, d, e, f, g
   0b1111011] -- 9: a, b, c, d, f, g

/-- `const int minusSign = 0b00000001;` (only segment g), from the second
variant of the sketch; the main variant writes the same pattern literally in
`displayMinusSign` (all of a..f low, g high). -/
def minusSign : ℕ := 0b0000001

/-- Bit `k` of `n`, as the source extracts it by shifting and masking
(`segments & 0b1` after `k` right shifts). -/
def bitAt (n k : ℕ) : Bool := (n >>> k) % 2 == 1

/-- One hardware side effect of the sketch: an Arduino `pinMode` call
(`output = true` for `OUTPUT`, `false` for `INPUT`), a `digitalWrite` call
(`high = true` for `HIGH`), or a `delayMicroseconds` call. -/
inductive Ev where
  | pinMode (pin : ℤ) (output : Bool)
  | digitalWrite (pin : ℤ) (high : Bool)
  | delayMicroseconds (us : ℤ)
deriving DecidableEq, Repr

/-- State of the 12 pins the sketch drives: levels of the eight segment pins
(2..9) and, for each digit-select pin (10..13), its mode (`true` = OUTPUT)
and its level. -/
structure PinState where
  segA : Bool
  segB : Bool
  segC : Bool
  segD : Bool
  segE : Bool
  segF : Bool
  segG : Bool
  segDP : Bool
  dig1Mode : Bool
  dig2Mode : Bool
  dig3Mode : Bool
  dig4Mode : Bool
  dig1 : Bool
  dig2 : Bool
  dig3 : Bool
  dig4 : Bool
deriving DecidableEq, Repr

/-- Effect of one hardware call on the pin state. -/
def applyEv (st : PinState) : Ev → PinState
  | .pinMode p b =>
    { st with
      dig1Mode := if p = DIGIT_1 then b else st.dig1Mode
      dig2Mode := if p = DIGIT_2 then b else st.dig2Mode
      dig3Mode := if p = DIGIT_3 then b else st.dig3Mode
      dig4Mode := if p = DIGIT_4 then b else st.dig4Mode }
  | .digitalWrite p b =>
    { st with
      segA := if p = SEGMENT_A then b else st.segA
      segB := if p = SEGMENT_B then b else st.segB
      segC := if p = SEGMENT_C then b else st.segC
      segD := if p = SEGMENT_D then b else st.segD
      segE := if p = SEGMENT_E then b else st.segE
      segF := if p = SEGMENT_F then b else st.segF
      segG := if p = SEGMENT_G then b else st.segG
      segDP := if p = SEGMENT_DP then b else st.segDP
      dig1 := if p = DIGIT_1 then b else st.dig1
      dig2 := if p = DIGIT_2 then b else st.dig2
      dig3 := if p = DIGIT_3 then b else st.dig3
      dig4 := if p = DIGIT_4 then b else st.dig4 }
  | .delayMicroseconds _ => st

/-- Run a trace of hardware calls from a starting pin state. -/
def runTrace (st : PinState) (t : List Ev) : PinState :=
  t.foldl applyEv st

/-- `void extinguishDigits()`: set every digit-select pin (DIGIT_1..DIGIT_4)
to INPUT, floating all common cathodes. -/
def extinguishDigits : List Ev :=
  [.pinMode DIGIT_1 false, .pinMode DIGIT_2 false,
   .pinMode DIGIT_3 false, .pinMode DIGIT_4 false]

/-- The segment mask `displayDigit` computes: the table entry when
`0 <= value <= 9`, otherwise the blank mask `0`. -/
def segmentsFor (value : ℤ) : ℕ :=
  if 0 ≤ value ∧ value ≤ 9 then segmentPatterns.getD value.toNat 0 else 0

/-- `void displayMinusSign(int digit)`: extinguish, drive segments f..a low,
the decimal point low, segment g high, then select the requested digit
(pin `digit + DIGIT_1 - 1` as OUTPUT, driven LOW). -/
def displayMinusSign (digit : ℤ) : List Ev :=
  extinguishDigits ++
  [.digitalWrite SEGMENT_F false, .digitalWrite SEGMENT_E false,
   .digitalWrite SEGMENT_D false, .digitalWrite SEGMENT_C false,
   .digitalWrite SEGMENT_B false, .digitalWrite SEGMENT_A false,
   .digitalWrite SEGMENT_DP false,
   .digitalWrite SEGMENT_G true,
   .pinMode (digit + DIGIT_1 - 1) true,
   .digitalWrite (digit + DIGIT_1 - 1) false]

/-- `void displayDigit(int digit, int value, bool decimalPoint)`: extinguish,
write the seven segment bits of the mask (pin G gets bit 0 .. pin A gets
bit 6), write the decimal point, then select the requested digit. -/
def displayDigit (digit : ℤ) (value : ℤ) (decimalPoint : Bool) : List Ev :=
  extinguishDigits ++
  [.digitalWrite SEGMENT_G (bitAt (segmentsFor value) 0),
   .digitalWrite SEGMENT_F (bitAt (segmentsFor value) 1),
   .digitalWrite SEGMENT_E (bitAt (segmentsFor value) 2),
   .digitalWrite SEGMENT_D (bitAt (segmentsFor value) 3),
   .digitalWrite SEGMENT_C (bitAt (segmentsFor value) 4),
   .digitalWrite SEGMENT_B (bitAt (segmentsFor value) 5),
   .digitalWrite SEGMENT_A (bitAt (segmentsFor value) 6),
   .digitalWrite SEGMENT_DP decimalPoint,
   .pinMode (digit + DIGIT_1 - 1) true,
   .digitalWrite (digit + DIGIT_1 - 1) false]

/-- One render step of `displayNumber`: the digit position passed to
`displayDigit`/`displayMinusSign` (`pos` = value of `currentDigit` at the
call), the glyph (`some d` a decimal digit, `none` the minus sign), and the
decimal point flag. -/
structure RenderStep where
  pos : ℤ
  glyph : Option ℕ
  dp : Bool
deriving DecidableEq, Repr

/-- The `for (i = 0; i < scaleOfNumber; i++)` loop over the fractional part:
emits one step per iteration with digit `remainingValue % 10`, decimal point
off, consuming positions right to left. -/
def fracLoop : ℕ → ℤ → ℕ → List RenderStep
  | 0, _, _ => []
  | n + 1, pos, remainingValue =>
    ⟨pos, some (remainingValue % 10), false⟩ ::
      fracLoop n (pos - 1) (remainingValue / 10)

/-- Body of the integer-part `do { } while (remainingValue > 0)` loop,
structurally recursive on a fuel bound (`remainingValue + 1` suffices, since
each pass divides `remainingValue` by 10). -/
def intLoopAux : ℕ → ℤ → ℕ → Bool → List RenderStep
  | 0, _, _, _ => []
  | fuel + 1, pos, remainingValue, decimalPoint =>
    ⟨pos, some (remainingValue % 10), decimalPoint⟩ ::
      (if 0 < remainingValue / 10 then
        intLoopAux fuel (pos - 1) (remainingValue / 10) false
      else [])

/-- The integer-part do-while loop: emits at least one step (digit
`remainingValue % 10`), decimal point on the first step only, until the
remaining value is exhausted. -/
def intLoop (pos : ℤ) (remainingValue : ℕ) (decimalPoint : Bool) : List RenderStep :=
  intLoopAux (remainingValue + 1) pos remainingValue decimalPoint

/-- The sequence of render steps `displayNumber` emits for `number`: nothing
when the range check `minimumValue <= number <= maximumValue` fails;
otherwise the `scaleOfNumber` fractional digits, then the integer digits
(decimal point on the first), then a minus-sign step when negative, with
`currentDigit` counting down from `numberOfDigits`. -/
def displaySteps (number : ℚ) : List RenderStep :=
  if minimumValue ≤ number ∧ number ≤ maximumValue then
    let n : ℚ := if number < 0 then -number else number
    let integerPart : ℕ := (⌊n⌋).toNat
    let fractionalPart : ℕ := (⌊(n - (integerPart : ℚ)) * (scalingFactor : ℚ)⌋).toNat
    let fracSteps := fracLoop scaleOfNumber (numberOfDigits : ℤ) fractionalPart
    let intSteps := intLoop ((numberOfDigits : ℤ) - scaleOfNumber) integerPart true
    fracSteps ++ intSteps ++
      (if number < 0 then
        [⟨(numberOfDigits : ℤ) - scaleOfNumber - intSteps.length, none, false⟩]
      else [])
  else []

/-- Hardware calls of one render step: `displayDigit` for a decimal digit,
`displayMinusSign` for the sign. -/
def stepBlock (s : RenderStep) : List Ev :=
  match s.glyph with
  | some g => displayDigit s.pos (g : ℤ) s.dp
  | none => displayMinusSign s.pos

/-- Hardware calls of a list of render steps, each followed by
`delayMicroseconds(digitTimeOn)`. -/
def renderTrace : List RenderStep → List Ev
  | [] => []
  | s :: rest => stepBlock s ++ (Ev.delayMicroseconds digitTimeOn :: renderTrace rest)

/-- `void displayNumber(float number)`: the render steps, then
`extinguishDigits()` and the equalizing hold
`delayMicroseconds(digitTimeOn * currentDigit)` where `currentDigit` ended at
`numberOfDigits` minus the number of steps emitted. -/
def displayNumber (number : ℚ) : List Ev :=
  renderTrace (displaySteps number) ++ extinguishDigits ++
    [Ev.delayMicroseconds
      (digitTimeOn * ((numberOfDigits : ℤ) - (displaySteps number).length))]

/-- Microseconds spent by one hardware call (only `delayMicroseconds`
blocks). -/
def delayOf : Ev → ℤ
  | .delayMicroseconds us => us
  | _ => 0

/-- Total microseconds a trace spends in delay calls. -/
def totalDelay (t : List Ev) : ℤ :=
  (t.map delayOf).sum

/-- State mutated by `loop()`: the pair of globals
`long iterations; float displayCounter;`. -/
structure LoopState where
  iterations : ℤ
  displayCounter : ℚ
deriving DecidableEq, Repr

/-- The counter-advance logic of `void loop()`: bump `iterations`; once the
elapsed time exceeds `timeBetweenIncrements`, reset `iterations`, add
`increment` to `displayCounter`, and wrap it to `minimumValue` when it
exceeds `maximumValue`. -/
def loopStep (s : LoopState) : LoopState :=
  let it := s.iterations + 1
  if (it : ℚ) * (digitTimeOn : ℚ) * (numberOfDigits : ℚ) / microsecondsInASecond
      > timeBetweenIncrements then
    let c := s.displayCounter + increment
    if c > maximumValue then ⟨0, minimumValue⟩ else ⟨0, c⟩
  else ⟨it, s.displayCounter⟩

/-- Recognizes an Arduino call that asserts a digit-select line: `pinMode`
with `OUTPUT` (the sketch only ever switches a pin to OUTPUT to select it). -/
def isSelectAssert : Ev → Bool
  | .pinMode _ output => output
  | _ => false

/-- Recognizes a `digitalWrite` call. -/
def isWrite : Ev → Bool
  | .digitalWrite _ _ => true
  | _ => false

/-- `selectGuard P st t`: running trace `t` from pin state `st`, every
digit-select assertion happens in a state satisfying `P`. -/
def selectGuard (P : PinState → Prop) : PinState → List Ev → Prop
  | _, [] => True
  | st, e :: rest =>
    (isSelectAssert e = true → P st) ∧ selectGuard P (applyEv st e) rest

/-- All digit-select lines deasserted: every digit pin is in INPUT mode
(the Blanked state of the driver). -/
def blanked (st : PinState) : Prop :=
  st.dig1Mode = false ∧ st.dig2Mode = false ∧ st.dig3Mode = false ∧ st.dig4Mode = false

/-- The seven segment levels of the pin state spell out mask `pat`
(pin A holds bit 6 .. pin G holds bit 0, the wiring order of the sketch). -/
def segsMatch (st : PinState) (pat : ℕ) : Prop :=
  st.segA = bitAt pat 6 ∧ st.segB = bitAt pat 5 ∧ st.segC = bitAt pat 4 ∧
  st.segD = bitAt pat 3 ∧ st.segE = bitAt pat 2 ∧ st.segF = bitAt pat 1 ∧
  st.segG = bitAt pat 0

/-- The segment lines hold a coherent glyph pattern: either the table entry
of some decimal digit, or the minus pattern with the decimal point off. -/
def coherent (st : PinState) : Prop :=
  (∃ g, g < 10 ∧ segsMatch st (segmentPatterns.getD g 0)) ∨
  (segsMatch st minusSign ∧ st.segDP = false)

/-- Blanked and holding a coherent pattern — what must be true whenever a
digit-select line is about to be asserted. -/
def blankedCoherent (st : PinState) : Prop :=
  blanked st ∧ coherent st

/-- Exactly the minus glyph: segment g active, segments a..f and the decimal
point inactive. -/
def minusOnly (st : PinState) : Prop :=
  st.segG = true ∧ st.segA = false ∧ st.segB = false ∧ st.segC = false ∧
  st.segD = false ∧ st.segE = false ∧ st.segF = false ∧ st.segDP = false

/-- The seven segment names of one digit cell. -/
inductive Segment where
  | a | b | c | d | e | f | g
deriving DecidableEq

/-- Bit position of each segment inside a mask (the order the source
documents: bit 6 = a .. bit 0 = g). -/
def segmentBit : Segment → ℕ
  | .a => 6
  | .b => 5
  | .c => 4
  | .d => 3
  | .e => 2
  | .f => 1
  | .g => 0

/-- Whether mask `pat` lights segment `s`. -/
def lightsSeg (pat : ℕ) (s : Segment) : Bool := bitAt pat (segmentBit s)

/-- Modelled from the spec: the canonical seven-segment glyph of each decimal
digit, as the set of lit segments (the source only records the bitmask; the
spec appeals to the canonical glyphs to judge it). -/
def canonicalGlyph : ℕ → List Segment
  | 0 => [.a, .b, .c, .d, .e, .f]
  | 1 => [.b, .c]
  | 2 => [.a, .b, .d, .e, .g]
  | 3 => [.a, .b, .c, .d, .g]
  | 4 => [.b, .c, .f, .g]
  | 5 => [.a, .c, .d, .f, .g]
  | 6 => [.a, .c, .d, .e, .f, .g]
  | 7 => [.a, .b, .c]
  | 8 => [.a, .b, .c, .d, .e, .f, .g]
  | 9 => [.a, .b, .c, .d, .f, .g]
  | _ => []

/-- Number of lit segments (popcount of the low seven bits of a mask). -/
def litSegmentCount (pat : ℕ) : ℕ :=
  ((List.range 7).filter (fun k => bitAt pat k)).length

end SevenSeg

namespace SevenSeg

/-! ### Basic lemmas about the render-step loops -/

lemma fracLoop_length (n : ℕ) : ∀ (pos : ℤ) (r : ℕ), (fracLoop n pos r).length = n := by
  induction n with
  | zero => intro pos r; rfl
  | succ n ih => intro pos r; simp [fracLoop, ih]

lemma intLoopAux_length_le (fuel : ℕ) :
    ∀ (pos : ℤ) (r : ℕ) (dp : Bool) (k : ℕ), 0 < k → r < 10 ^ k →
      (intLoopAux fuel pos r dp).length ≤ k := by
  induction fuel with
  | zero => intro pos r dp k hk _; simp [intLoopAux]
  | succ fuel ih =>
    intro pos r dp k hk hr
    rw [intLoopAux]
    by_cases h10 : 0 < r / 10
    · have hk2 : 2 ≤ k := by
        by_contra hlt
        have hk1 : k = 1 := by omega
        subst hk1
        simp at hr
        omega
      have hr' : r / 10 < 10 ^ (k - 1) := by
        have : r < 10 ^ (k - 1) * 10 := by
          have : 10 ^ (k - 1) * 10 = 10 ^ k := by
            have : k - 1 + 1 = k := by omega
            calc 10 ^ (k - 1) * 10 = 10 ^ (k - 1 + 1) := by ring
              _ = 10 ^ k := by rw [this]
          omega
        omega
      have := ih (pos - 1) (r / 10) false (k - 1) (by omega) hr'
      simp [h10]
      omega
    · simp [h10]
      omega

lemma intLoop_length_le (pos : ℤ) (r : ℕ) (dp : Bool) (k : ℕ)
    (hk : 0 < k) (hr : r < 10 ^ k) : (intLoop pos r dp).length ≤ k :=
  intLoopAux_length_le (r + 1) pos r dp k hk hr

lemma intLoop_ne_nil (pos : ℤ) (r : ℕ) (dp : Bool) : intLoop pos r dp ≠ [] := by
  rw [intLoop, intLoopAux]
  simp

/-- Evaluation rule for `displaySteps` on an in-range non-negative value,
once its integer part and scaled fractional part are known. -/
lemma displaySteps_eval_pos (number : ℚ) (ip fp : ℕ)
    (h1 : minimumValue ≤ number ∧ number ≤ maximumValue)
    (h2 : ¬ number < 0)
    (h3 : ⌊number⌋ = (ip : ℤ))
    (h4 : ⌊(number - (ip : ℚ)) * (scalingFactor : ℚ)⌋ = (fp : ℤ)) :
    displaySteps number =
      fracLoop scaleOfNumber (numberOfDigits : ℤ) fp ++
      intLoop ((numberOfDigits : ℤ) - scaleOfNumber) ip true := by
  simp only [displaySteps]
  rw [if_pos h1]
  simp only [h2, if_false, ite_false]
  simp only [h3, Int.toNat_natCast, h4, List.append_nil]

/-- Evaluation rule for `displaySteps` on an in-range negative value. -/
lemma displaySteps_eval_neg (number : ℚ) (ip fp : ℕ)
    (h1 : minimumValue ≤ number ∧ number ≤ maximumValue)
    (h2 : number < 0)
    (h3 : ⌊-number⌋ = (ip : ℤ))
    (h4 : ⌊(-number - (ip : ℚ)) * (scalingFactor : ℚ)⌋ = (fp : ℤ)) :
    displaySteps number =
      fracLoop scaleOfNumber (numberOfDigits : ℤ) fp ++
      intLoop ((numberOfDigits : ℤ) - scaleOfNumber) ip true ++
      [⟨(numberOfDigits : ℤ) - scaleOfNumber -
          (intLoop ((numberOfDigits : ℤ) - scaleOfNumber) ip true).length, none, false⟩] := by
  simp only [displaySteps]
  rw [if_pos h1]
  simp only [h2, if_true, ite_true]
  simp only [h3, Int.toNat_natCast, h4]

/-- `displaySteps` on an out-of-range value emits nothing. -/
lemma displaySteps_out (number : ℚ)
    (h : ¬ (minimumValue ≤ number ∧ number ≤ maximumValue)) :
    displaySteps number = [] := by
  simp only [displaySteps]
  rw [if_neg h]

/-! ### Every glyph a render step carries is a decimal digit -/

lemma fracLoop_glyph_lt (n : ℕ) :
    ∀ (pos : ℤ) (r : ℕ), ∀ s ∈ fracLoop n pos r, ∀ g, s.glyph = some g → g < 10 := by
  induction n with
  | zero => intro pos r s hs; simp [fracLoop] at hs
  | succ n ih =>
    intro pos r s hs g hg
    rw [fracLoop] at hs
    rcases List.mem_cons.mp hs with h | h
    · rw [h] at hg
      simp at hg
      omega
    · exact ih _ _ s h g hg

lemma intLoopAux_glyph_lt (fuel : ℕ) :
    ∀ (pos : ℤ) (r : ℕ) (dp : Bool), ∀ s ∈ intLoopAux fuel pos r dp,
      ∀ g, s.glyph = some g → g < 10 := by
  induction fuel with
  | zero => intro pos r dp s hs; simp [intLoopAux] at hs
  | succ fuel ih =>
    intro pos r dp s hs g hg
    rw [intLoopAux] at hs
    rcases List.mem_cons.mp hs with h | h
    · rw [h] at hg
      simp at hg
      omega
    · by_cases h10 : 0 < r / 10
      · rw [if_pos h10] at h
        exact ih _ _ _ s h g hg
      · rw [if_neg h10] at h
        simp at h

lemma displaySteps_glyph_lt (v : ℚ) :
    ∀ s ∈ displaySteps v, ∀ g, s.glyph = some g → g < 10 := by
  intro s hs g hg
  by_cases h : minimumValue ≤ v ∧ v ≤ maximumValue
  · simp only [displaySteps] at hs
    rw [if_pos h] at hs
    rcases List.mem_append.mp hs with h1 | h1
    · rcases List.mem_append.mp h1 with h2 | h2
      · exact fracLoop_glyph_lt _ _ _ s h2 g hg
      · exact intLoopAux_glyph_lt _ _ _ _ s h2 g hg
    · by_cases hneg : v < 0
      · rw [if_pos hneg] at h1
        rcases List.mem_singleton.mp h1 with h2
        rw [h2] at hg
        simp at hg
      · rw [if_neg hneg] at h1
        simp at h1
  · rw [displaySteps_out v h] at hs
    simp at hs

/-! ### Delay accounting -/

lemma totalDelay_append (t1 t2 : List Ev) :
    totalDelay (t1 ++ t2) = totalDelay t1 + totalDelay t2 := by
  simp [totalDelay]

lemma totalDelay_stepBlock (s : RenderStep) : totalDelay (stepBlock s) = 0 := by
  rcases s with ⟨pos, glyph, dp⟩
  cases glyph <;>
    simp [stepBlock, displayDigit, displayMinusSign, extinguishDigits, totalDelay, delayOf]

lemma totalDelay_renderTrace (l : List RenderStep) :
    totalDelay (renderTrace l) = digitTimeOn * l.length := by
  induction l with
  | nil => simp [renderTrace, totalDelay]
  | cons s rest ih =>
    rw [renderTrace, totalDelay_append, totalDelay_stepBlock]
    have h : totalDelay (Ev.delayMicroseconds digitTimeOn :: renderTrace rest)
        = digitTimeOn + totalDelay (renderTrace rest) := by
      simp [totalDelay, delayOf]
    rw [h, ih]
    simp only [List.length_cons]
    push_cast
    ring

/-! ### Bounds on the number of emitted steps -/

lemma maximumValue_lt_1000 : maximumValue < 1000 := by
  norm_num [maximumValue, increment, scalingFactor, scaleOfNumber, numberOfDigits]

lemma neg_100_lt_minimumValue : -100 < minimumValue := by
  norm_num [minimumValue, increment, scalingFactor, scaleOfNumber, numberOfDigits]

lemma minimumValue_le_maximumValue : minimumValue ≤ maximumValue := by
  norm_num [minimumValue, maximumValue, increment, scalingFactor, scaleOfNumber,
    numberOfDigits]

lemma displaySteps_length_le (v : ℚ) :
    (displaySteps v).length ≤ numberOfDigits := by
  by_cases h : minimumValue ≤ v ∧ v ≤ maximumValue
  · simp only [displaySteps]
    rw [if_pos h]
    by_cases hv : v < 0
    · simp only [hv, if_true, ite_true]
      have hip : (⌊-v⌋).toNat < 10 ^ 2 := by
        have hle : (-v : ℚ) < 100 := by
          have h1 := neg_100_lt_minimumValue
          have h2 := h.1
          linarith
        have : ⌊(-v : ℚ)⌋ < (100 : ℤ) := Int.floor_lt.mpr (by exact_mod_cast hle)
        omega
      have hint := intLoop_length_le ((numberOfDigits : ℤ) - scaleOfNumber)
        ((⌊(-v : ℚ)⌋).toNat) true 2 (by norm_num) hip
      simp only [List.length_append, fracLoop_length, List.length_singleton]
      simp only [numberOfDigits, scaleOfNumber] at hint ⊢
      omega
    · simp only [hv, if_false, ite_false]
      have hip : (⌊v⌋).toNat < 10 ^ 3 := by
        have hle : (v : ℚ) < 1000 := lt_of_le_of_lt h.2 maximumValue_lt_1000
        have : ⌊(v : ℚ)⌋ < (1000 : ℤ) := Int.floor_lt.mpr (by exact_mod_cast hle)
        omega
      have hint := intLoop_length_le ((numberOfDigits : ℤ) - scaleOfNumber)
        ((⌊(v : ℚ)⌋).toNat) true 3 (by norm_num) hip
      simp only [List.length_append, fracLoop_length, List.length_nil]
      simp only [numberOfDigits, scaleOfNumber] at hint ⊢
      omega
  · rw [displaySteps_out v h]
    simp [numberOfDigits]

/-! ### The select-guard temporal predicate -/

lemma runTrace_cons (st : PinState) (e : Ev) (t : List Ev) :
    runTrace st (e :: t) = runTrace (applyEv st e) t := by
  simp [runTrace]

lemma runTrace_append (st : PinState) (t1 t2 : List Ev) :
    runTrace st (t1 ++ t2) = runTrace (runTrace st t1) t2 := by
  simp [runTrace]

lemma selectGuard_append (P : PinState → Prop) (t1 t2 : List Ev) :
    ∀ st, selectGuard P st t1 → selectGuard P (runTrace st t1) t2 →
      selectGuard P st (t1 ++ t2) := by
  induction t1 with
  | nil => intro st _ h2; simpa [runTrace] using h2
  | cons e rest ih =>
    intro st h1 h2
    rw [List.cons_append, selectGuard]
    rw [selectGuard] at h1
    exact ⟨h1.1, ih (applyEv st e) h1.2 (by rwa [runTrace_cons] at h2)⟩

lemma segmentsFor_digit (g : ℕ) (hg : g < 10) :
    segmentsFor (g : ℤ) = segmentPatterns.getD g 0 := by
  rw [segmentsFor, if_pos]
  · simp
  · exact ⟨Int.natCast_nonneg g, by exact_mod_cast Nat.lt_succ_iff.mp hg⟩

/-- Inside one `displayDigit` call, the only select assertion happens with all
digit lines blanked and the full pattern of digit `g` on the segment lines. -/
lemma selectGuard_displayDigit (d : ℤ) (g : ℕ) (hg : g < 10) (dp : Bool) (st : PinState) :
    selectGuard blankedCoherent st (displayDigit d (g : ℤ) dp) := by
  simp only [displayDigit, extinguishDigits, List.cons_append, List.nil_append]
  simp only [selectGuard, isSelectAssert, applyEv]
  simp only [SEGMENT_A, SEGMENT_B, SEGMENT_C, SEGMENT_D, SEGMENT_E, SEGMENT_F, SEGMENT_G,
    SEGMENT_DP, DIGIT_1, DIGIT_2, DIGIT_3, DIGIT_4]
  norm_num
  constructor
  · exact ⟨rfl, rfl, rfl, rfl⟩
  · refine Or.inl ⟨g, hg, ?_⟩
    rw [segmentsFor_digit g hg]
    exact ⟨rfl, rfl, rfl, rfl, rfl, rfl, rfl⟩

/-- Inside one `displayMinusSign` call, the only select assertion happens with
all digit lines blanked and the minus pattern on the segment lines. -/
lemma selectGuard_displayMinusSign (d : ℤ) (st : PinState) :
    selectGuard blankedCoherent st (displayMinusSign d) := by
  simp only [displayMinusSign, extinguishDigits, List.cons_append, List.nil_append]
  simp only [selectGuard, isSelectAssert, applyEv]
  simp only [SEGMENT_A, SEGMENT_B, SEGMENT_C, SEGMENT_D, SEGMENT_E, SEGMENT_F, SEGMENT_G,
    SEGMENT_DP, DIGIT_1, DIGIT_2, DIGIT_3, DIGIT_4]
  norm_num
  constructor
  · exact ⟨rfl, rfl, rfl, rfl⟩
  · refine Or.inr ⟨⟨?_, ?_, ?_, ?_, ?_, ?_, ?_⟩, rfl⟩ <;> rfl

lemma selectGuard_renderTrace :
    ∀ (l : List RenderStep), (∀ s ∈ l, ∀ g, s.glyph = some g → g < 10) →
      ∀ st, selectGuard blankedCoherent st (renderTrace l) := by
  intro l
  induction l with
  | nil => intro _ st; rw [renderTrace]; trivial
  | cons s rest ih =>
    intro hl st
    rw [renderTrace]
    apply selectGuard_append
    · rcases hgl : s.glyph with _ | g
      · simp only [stepBlock, hgl]
        exact selectGuard_displayMinusSign _ st
      · simp only [stepBlock, hgl]
        exact selectGuard_displayDigit _ g (hl s (List.mem_cons_self s rest) g hgl) _ _
    · rw [selectGuard]
      refine ⟨by simp [isSelectAssert], ?_⟩
      exact ih (fun t ht => hl t (List.mem_cons_of_mem s ht)) _

end SevenSeg

namespace SevenSeg

/-! ### The claim theorems -/

/-- C1: a call to `displayNumber` emits at most `numberOfDigits` render steps
and always spends exactly `numberOfDigits * digitTimeOn` microseconds in
delay calls, independent of the value displayed. -/
theorem displayNumber_cycle_duration (v : ℚ) :
    (displaySteps v).length ≤ numberOfDigits ∧
    totalDelay (displayNumber v) = (numberOfDigits : ℤ) * digitTimeOn := by
  refine ⟨displaySteps_length_le v, ?_⟩
  simp only [displayNumber]
  rw [totalDelay_append, totalDelay_append, totalDelay_renderTrace]
  have h : totalDelay extinguishDigits = 0 := by
    simp [totalDelay, extinguishDigits, delayOf]
  have h2 : totalDelay [Ev.delayMicroseconds
      (digitTimeOn * ((numberOfDigits : ℤ) - (displaySteps v).length))]
      = digitTimeOn * ((numberOfDigits : ℤ) - (displaySteps v).length) := by
    simp [totalDelay, delayOf]
  rw [h, h2]
  ring

/-- C2: on an out-of-range value, `displayNumber` emits no render step, never
asserts a digit-select line, performs no `digitalWrite` at all, and still
spends the full fixed cycle duration in delays. -/
theorem displayNumber_out_of_range_blank (v : ℚ)
    (h : ¬ (minimumValue ≤ v ∧ v ≤ maximumValue)) :
    displaySteps v = [] ∧
    (displayNumber v).all (fun e => !isSelectAssert e && !isWrite e) = true ∧
    totalDelay (displayNumber v) = (numberOfDigits : ℤ) * digitTimeOn := by
  have hs := displaySteps_out v h
  refine ⟨hs, ?_, ?_⟩
  · simp [displayNumber, hs, renderTrace, extinguishDigits, isSelectAssert, isWrite]
  · simp [displayNumber, hs, renderTrace, totalDelay, delayOf, extinguishDigits,
      numberOfDigits, digitTimeOn, totalDelay_append]

theorem displayNumber_out_of_range_blank_witness :
    displaySteps 1000 = [] ∧
    (displayNumber 1000).all (fun e => !isSelectAssert e && !isWrite e) = true ∧
    totalDelay (displayNumber 1000) = (numberOfDigits : ℤ) * digitTimeOn :=
  displayNumber_out_of_range_blank 1000 (by
    norm_num [minimumValue, maximumValue, increment, scalingFactor, scaleOfNumber,
      numberOfDigits])

/-- C3: with scale 1, the value 12.3 renders as fractional digit 3, then
integer digit 2 with the decimal point, then integer digit 1, with no sign
step; and the split truncates (12.39 still yields fractional digit 3). -/
theorem displayNumber_12_3_decomposition :
    displaySteps (123/10) =
      [⟨4, some 3, false⟩, ⟨3, some 2, true⟩, ⟨2, some 1, false⟩] ∧
    (displaySteps (1239/100)).head? = some ⟨4, some 3, false⟩ := by
  constructor
  · rw [displaySteps_eval_pos (123/10) 12 3]
    · decide
    · constructor <;>
        norm_num [minimumValue, maximumValue, increment, scalingFactor, scaleOfNumber,
          numberOfDigits]
    · norm_num
    · norm_num [Int.floor_eq_iff]
    · norm_num [scalingFactor, scaleOfNumber, Int.floor_eq_iff]
  · rw [displaySteps_eval_pos (1239/100) 12 3]
    · decide
    · constructor <;>
        norm_num [minimumValue, maximumValue, increment, scalingFactor, scaleOfNumber,
          numberOfDigits]
    · norm_num
    · norm_num [Int.floor_eq_iff]
    · norm_num [scalingFactor, scaleOfNumber, Int.floor_eq_iff]

/-- C4: the value -3.4 renders as fractional digit 4, integer digit 3 with
the decimal point, then a minus-sign step at position 2, exactly 3 steps, and
the final blanked hold is `digitTimeOn * 1` microseconds. -/
theorem displayNumber_neg_3_4_sign_placement :
    displaySteps (-17/5) =
      [⟨4, some 4, false⟩, ⟨3, some 3, true⟩, ⟨2, none, false⟩] ∧
    digitTimeOn * ((numberOfDigits : ℤ) - (displaySteps (-17/5)).length)
      = digitTimeOn * 1 ∧
    (displayNumber (-17/5)).getLast? = some (Ev.delayMicroseconds (digitTimeOn * 1)) := by
  have hsteps : displaySteps (-17/5) =
      [⟨4, some 4, false⟩, ⟨3, some 3, true⟩, ⟨2, none, false⟩] := by
    rw [displaySteps_eval_neg (-17/5) 3 4]
    · decide
    · constructor <;>
        norm_num [minimumValue, maximumValue, increment, scalingFactor, scaleOfNumber,
          numberOfDigits]
    · norm_num
    · norm_num [Int.floor_eq_iff]
    · norm_num [scalingFactor, scaleOfNumber, Int.floor_eq_iff]
  refine ⟨hsteps, ?_, ?_⟩
  · rw [hsteps]
    decide
  · simp only [displayNumber, hsteps]
    decide

/-- C5: each table entry for 0..9 lights as many segments as the canonical
seven-segment glyph; the entry for 0 lights a,b,c,d,e,f and not g, and the
entry for 1 lights only b and c. -/
theorem segmentPatterns_canonical_popcount :
    (∀ g : Fin 10, litSegmentCount (segmentPatterns.getD (g : ℕ) 0)
        = (canonicalGlyph (g : ℕ)).length) ∧
    lightsSeg (segmentPatterns.getD 0 0) .a = true ∧
    lightsSeg (segmentPatterns.getD 0 0) .b = true ∧
    lightsSeg (segmentPatterns.getD 0 0) .c = true ∧
    lightsSeg (segmentPatterns.getD 0 0) .d = true ∧
    lightsSeg (segmentPatterns.getD 0 0) .e = true ∧
    lightsSeg (segmentPatterns.getD 0 0) .f = true ∧
    lightsSeg (segmentPatterns.getD 0 0) .g = false ∧
    lightsSeg (segmentPatterns.getD 1 0) .a = false ∧
    lightsSeg (segmentPatterns.getD 1 0) .b = true ∧
    lightsSeg (segmentPatterns.getD 1 0) .c = true ∧
    lightsSeg (segmentPatterns.getD 1 0) .d = false ∧
    lightsSeg (segmentPatterns.getD 1 0) .e = false ∧
    lightsSeg (segmentPatterns.getD 1 0) .f = false ∧
    lightsSeg (segmentPatterns.getD 1 0) .g = false := by
  decide

/-- C6: `displayDigit` on a value outside 0..9 uses the blank mask and leaves
every segment a..g unlit after the call, from any starting pin state. -/
theorem displayDigit_invalid_value_blank (d value : ℤ) (dp : Bool) (s0 : PinState)
    (h : value < 0 ∨ 9 < value) :
    segmentsFor value = 0 ∧
    (runTrace s0 (displayDigit d value dp)).segA = false ∧
    (runTrace s0 (displayDigit d value dp)).segB = false ∧
    (runTrace s0 (displayDigit d value dp)).segC = false ∧
    (runTrace s0 (displayDigit d value dp)).segD = false ∧
    (runTrace s0 (displayDigit d value dp)).segE = false ∧
    (runTrace s0 (displayDigit d value dp)).segF = false ∧
    (runTrace s0 (displayDigit d value dp)).segG = false := by
  have h0 : segmentsFor value = 0 := by
    rw [segmentsFor, if_neg]
    rintro ⟨h1, h2⟩
    rcases h with h | h <;> omega
  refine ⟨h0, ?_⟩
  simp only [displayDigit, h0, extinguishDigits, List.cons_append, List.nil_append]
  simp only [runTrace, List.foldl, applyEv]
  simp only [SEGMENT_A, SEGMENT_B, SEGMENT_C, SEGMENT_D, SEGMENT_E, SEGMENT_F, SEGMENT_G,
    SEGMENT_DP, DIGIT_1, DIGIT_2, DIGIT_3, DIGIT_4]
  norm_num [bitAt]

theorem displayDigit_invalid_value_blank_witness :
    segmentsFor 10 = 0 ∧
    (runTrace ⟨true, true, true, true, true, true, true, true, true, true, true, true,
        true, true, true, true⟩ (displayDigit 1 10 false)).segA = false ∧
    (runTrace ⟨true, true, true, true, true, true, true, true, true, true, true, true,
        true, true, true, true⟩ (displayDigit 1 10 false)).segB = false ∧
    (runTrace ⟨true, true, true, true, true, true, true, true, true, true, true, true,
        true, true, true, true⟩ (displayDigit 1 10 false)).segC = false ∧
    (runTrace ⟨true, true, true, true, true, true, true, true, true, true, true, true,
        true, true, true, true⟩ (displayDigit 1 10 false)).segD = false ∧
    (runTrace ⟨true, true, true, true, true, true, true, true, true, true, true, true,
        true, true, true, true⟩ (displayDigit 1 10 false)).segE = false ∧
    (runTrace ⟨true, true, true, true, true, true, true, true, true, true, true, true,
        true, true, true, true⟩ (displayDigit 1 10 false)).segF = false ∧
    (runTrace ⟨true, true, true, true, true, true, true, true, true, true, true, true,
        true, true, true, true⟩ (displayDigit 1 10 false)).segG = false :=
  displayDigit_invalid_value_blank 1 10 false _ (by decide)

/-- C7 (amended): `displayNumber` renders numerically exactly for
`minimumValue <= v <= maximumValue`, bounds inclusive, where the constants
are the spec bounds tightened inward by one `increment`; all other values
blank. -/
theorem displayNumber_range_inclusive (v : ℚ) :
    (displaySteps v ≠ [] ↔ (minimumValue ≤ v ∧ v ≤ maximumValue)) ∧
    minimumValue = -(10 ^ (numberOfDigits - 1) : ℚ) / (scalingFactor : ℚ) + increment ∧
    maximumValue = (10 ^ numberOfDigits : ℚ) / (scalingFactor : ℚ) - increment := by
  refine ⟨⟨?_, ?_⟩, rfl, rfl⟩
  · intro hne
    by_contra h
    exact hne (displaySteps_out v h)
  · intro h
    simp only [displaySteps]
    rw [if_pos h]
    by_cases hv : v < 0 <;>
      simp [hv, scaleOfNumber, fracLoop]

/-- C7 counterexample: -99.95 lies strictly inside the open interval
(-10^3/10, 10^4/10) the claim declares valid, yet `displayNumber` blanks
it. -/
theorem displayNumber_range_exclusive_cex :
    displaySteps (-1999/20) = [] ∧
    -(10 ^ (numberOfDigits - 1) : ℚ) / (scalingFactor : ℚ) < -1999/20 ∧
    (-1999/20 : ℚ) < (10 ^ numberOfDigits : ℚ) / (scalingFactor : ℚ) := by
  refine ⟨displaySteps_out _ ?_, ?_, ?_⟩ <;>
    norm_num [minimumValue, maximumValue, increment, scalingFactor, scaleOfNumber,
      numberOfDigits]

/-- C8: one pass of `loop` keeps the display counter within
[minimumValue, maximumValue]; it either leaves the counter unchanged,
advances it by exactly one increment, or — precisely when the increment
would pass `maximumValue` — wraps it to exactly `minimumValue`. -/
theorem loop_counter_wrap_invariant (s : LoopState)
    (h : minimumValue ≤ s.displayCounter ∧ s.displayCounter ≤ maximumValue) :
    (minimumValue ≤ (loopStep s).displayCounter ∧
      (loopStep s).displayCounter ≤ maximumValue) ∧
    ((loopStep s).displayCounter = s.displayCounter ∨
      (s.displayCounter + increment ≤ maximumValue ∧
        (loopStep s).displayCounter = s.displayCounter + increment) ∨
      (maximumValue < s.displayCounter + increment ∧
        (loopStep s).displayCounter = minimumValue)) := by
  simp only [loopStep]
  by_cases ht : ((s.iterations + 1 : ℤ) : ℚ) * (digitTimeOn : ℚ) * (numberOfDigits : ℚ)
      / microsecondsInASecond > timeBetweenIncrements
  · rw [if_pos ht]
    by_cases hw : s.displayCounter + increment > maximumValue
    · rw [if_pos hw]
      exact ⟨⟨le_refl _, minimumValue_le_maximumValue⟩, Or.inr (Or.inr ⟨hw, rfl⟩)⟩
    · rw [if_neg hw]
      push_neg at hw
      have hinc : (0:ℚ) < increment := by
        norm_num [increment, scalingFactor, scaleOfNumber]
      refine ⟨⟨?_, hw⟩, Or.inr (Or.inl ⟨hw, rfl⟩)⟩
      show minimumValue ≤ s.displayCounter + increment
      linarith [h.1]
  · rw [if_neg ht]
    exact ⟨h, Or.inl rfl⟩

theorem loop_counter_wrap_invariant_witness :
    (minimumValue ≤ (loopStep ⟨0, minimumValue⟩).displayCounter ∧
      (loopStep ⟨0, minimumValue⟩).displayCounter ≤ maximumValue) ∧
    ((loopStep ⟨0, minimumValue⟩).displayCounter = minimumValue ∨
      (minimumValue + increment ≤ maximumValue ∧
        (loopStep ⟨0, minimumValue⟩).displayCounter = minimumValue + increment) ∨
      (maximumValue < minimumValue + increment ∧
        (loopStep ⟨0, minimumValue⟩).displayCounter = minimumValue)) :=
  loop_counter_wrap_invariant ⟨0, minimumValue⟩
    ⟨le_refl minimumValue, minimumValue_le_maximumValue⟩

/-- C9: during `displayNumber`, every assertion of a digit-select line
happens from a state where all digit-select lines are deasserted and the
segment lines already hold the complete pattern of a glyph (a decimal digit
or the minus sign). -/
theorem displayNumber_blanked_before_select (v : ℚ) (s0 : PinState) :
    selectGuard blankedCoherent s0 (displayNumber v) := by
  simp only [displayNumber]
  apply selectGuard_append
  · apply selectGuard_append
    · exact selectGuard_renderTrace _ (displaySteps_glyph_lt v) s0
    · simp [selectGuard, extinguishDigits, isSelectAssert]
  · simp [selectGuard, isSelectAssert]

/-- C10: `displayMinusSign`, for every digit position, asserts the digit
select only after driving segment g active and segments a..f and the decimal
point inactive. -/
theorem displayMinusSign_only_segment_g (d : ℤ) (s0 : PinState) :
    selectGuard minusOnly s0 (displayMinusSign d) := by
  simp only [displayMinusSign, extinguishDigits, List.cons_append, List.nil_append]
  simp only [selectGuard, isSelectAssert, applyEv]
  simp only [SEGMENT_A, SEGMENT_B, SEGMENT_C, SEGMENT_D, SEGMENT_E, SEGMENT_F, SEGMENT_G,
    SEGMENT_DP, DIGIT_1, DIGIT_2, DIGIT_3, DIGIT_4]
  norm_num
  exact ⟨rfl, rfl, rfl, rfl, rfl, rfl, rfl, rfl⟩

end SevenSeg
